import Mathlib

/-!
Shallow embedding of the doke-gdext content-ingestion core: the frontmatter
splitter and YAML flattener, the Markdown AST normaliser with wiki-link
extraction (src/parsers/doke_parser.rs), the parser registry
(src/parser_api.rs) and the error taxonomy (src/error.rs).

External collaborators (the regex engine, the yaml_rust2 loader, the
markdown crate and Rust's f64 parsing) are embedded at the precision the
source uses them; every modelled external behaviour is documented at its
definition.
-/

/-- Unicode white-space, the character class `\s` used by the frontmatter
regex of `parse_frontmatter` (src/parsers/doke_parser.rs line 60). -/
def isWs (c : Char) : Bool :=
  c = ' ' || c = '\t' || c = '\n' || c = '\x0b' || c = '\x0c' || c = '\r' ||
  c.toNat = 0x85 || c.toNat = 0xa0 || c.toNat = 0x1680 ||
  (0x2000 ≤ c.toNat && c.toNat ≤ 0x200a) || c.toNat = 0x2028 || c.toNat = 0x2029 ||
  c.toNat = 0x202f || c.toNat = 0x205f || c.toNat = 0x3000

/-- `ResourceLink` (src/parsers/doke_parser.rs lines 12-17). -/
structure ResourceLink where
  resource_type : Option String
  resource_name : String
  resolved : Bool
deriving DecidableEq

/-- The scan performed by `captures_iter` of the wiki-link regex
`\[\[([^\]]+)\]\]` over a character list (src/parsers/doke_parser.rs
lines 391-406): at each position the engine tries `[[`, a non-empty greedy
run of characters other than `]`, then `]]`; on success it emits the inner
text and resumes after the match, on failure it advances one character.
Fuel decreases on every abandoned position and every emitted match, so
`length + 1` fuel always suffices. -/
def scanF : Nat → List Char → List String
  | 0, _ => []
  | _ + 1, [] => []
  | fuel + 1, c :: rest =>
    if c = '[' then
      match rest with
      | [] => []
      | d :: rest2 =>
        if d = '[' then
          let inner := rest2.takeWhile (· != ']')
          let after := rest2.dropWhile (· != ']')
          if inner = [] then scanF fuel (d :: rest2)
          else
            match after with
            | a :: b :: rest3 =>
              if a = ']' ∧ b = ']' then String.mk inner :: scanF fuel rest3
              else scanF fuel (d :: rest2)
            | _ => scanF fuel (d :: rest2)
        else scanF fuel (d :: rest2)
    else scanF fuel rest

/-- All `[[name]]` matches, in left-to-right order. -/
def scanWikiLinks (l : List Char) : List String := scanF (l.length + 1) l

/-- `extract_wiki_links_from_text` (src/parsers/doke_parser.rs
lines 391-406): each match becomes a `ResourceLink` with no type hint and
`resolved = false`. -/
def extract_wiki_links_from_text (text : String) : List ResourceLink :=
  (scanWikiLinks text.data).map fun n =>
    { resource_type := none, resource_name := n, resolved := false }

/-- The generic Markdown AST (the mdast `Node` type of the external
markdown crate), restricted to the constructors the source inspects; every
other node kind behaves uniformly and is collapsed into `other`. -/
inductive MdNode where
  | heading (depth : Nat) (children : List MdNode)
  | paragraph (children : List MdNode)
  | list (ordered : Bool) (children : List MdNode)
  | listItem (children : List MdNode)
  | text (value : String)
  | strong (children : List MdNode)
  | emphasis (children : List MdNode)
  | inlineCode (value : String)
  | link (children : List MdNode)
  | image (alt : String)
  | delete (children : List MdNode)
  | root (children : List MdNode)
  | other

/-- `DokeNode` (src/parsers/doke_parser.rs lines 19-32); fields in source
order: node_type, markdown_element, content, raw_content, level, line,
column, children, wiki_links, ordered, resolved. -/
inductive DokeNode where
  | mk (node_type : String) (markdown_element : String) (content : Option String)
       (raw_content : String) (level : Option Nat) (line : Nat) (column : Nat)
       (children : List DokeNode) (wiki_links : List ResourceLink)
       (ordered : Option Bool) (resolved : Bool)

def DokeNode.markdown_element : DokeNode → String
  | .mk _ me _ _ _ _ _ _ _ _ _ => me

def DokeNode.content : DokeNode → Option String
  | .mk _ _ co _ _ _ _ _ _ _ _ => co

def DokeNode.level : DokeNode → Option Nat
  | .mk _ _ _ _ lv _ _ _ _ _ _ => lv

def DokeNode.children : DokeNode → List DokeNode
  | .mk _ _ _ _ _ _ _ cs _ _ _ => cs

def DokeNode.wiki_links : DokeNode → List ResourceLink
  | .mk _ _ _ _ _ _ _ _ wl _ _ => wl

def DokeNode.resolved : DokeNode → Bool
  | .mk _ _ _ _ _ _ _ _ _ _ r => r

mutual
/-- `extract_text_content_from_node` (src/parsers/doke_parser.rs
lines 251-297) together with the per-kind helpers it calls: containers
concatenate the extracted text of their children in order, skipping
children that yield nothing. -/
def extract_text_content_from_node : MdNode → Option String
  | .text v => some v
  | .heading _ cs => some (concatTextContents cs)
  | .paragraph cs => some (concatTextContents cs)
  | .listItem cs => some (concatTextContents cs)
  | .strong cs => some (concatTextContents cs)
  | .emphasis cs => some (concatTextContents cs)
  | .inlineCode v => some v
  | .link cs => some (concatTextContents cs)
  | .image alt => some alt
  | .delete cs => some (concatTextContents cs)
  | _ => none

def concatTextContents : List MdNode → String
  | [] => ""
  | n :: ns =>
    (match extract_text_content_from_node n with
     | some t => t
     | none => "") ++ concatTextContents ns
end

/-- `extract_raw_content` (src/parsers/doke_parser.rs lines 299-324):
a simplified placeholder text per node kind; only text nodes carry their
actual value. The `original_content` argument is unused, as in the source. -/
def extract_raw_content (node : MdNode) (original_content : String) : String :=
  match node with
  | .heading depth _ => "Heading level " ++ toString depth
  | .paragraph _ => "Paragraph content"
  | .list ordered _ => if ordered then "Ordered list" else "Unordered list"
  | .listItem _ => "List item"
  | .text v => v
  | _ => ""

mutual
/-- `extract_wiki_links` (src/parsers/doke_parser.rs lines 360-389):
collects text-leaf matches bottom-up through heading, paragraph, list and
list-item containers. -/
def extract_wiki_links : MdNode → List ResourceLink
  | .text v => extract_wiki_links_from_text v
  | .heading _ cs => extract_wiki_links_list cs
  | .paragraph cs => extract_wiki_links_list cs
  | .list _ cs => extract_wiki_links_list cs
  | .listItem cs => extract_wiki_links_list cs
  | _ => []

def extract_wiki_links_list : List MdNode → List ResourceLink
  | [] => []
  | n :: ns => extract_wiki_links n ++ extract_wiki_links_list ns
end

mutual
/-- `convert_mdast_node` (src/parsers/doke_parser.rs lines 110-219):
one `DokeNode` per recognised kind, an `unknown` placeholder for anything
else; `line` and `column` are propagated uniformly and `resolved` is set
to `false` in every arm. -/
def convert_mdast_node (node : MdNode) (original_content : String)
    (line : Nat) (column : Nat) : DokeNode :=
  match node with
  | .heading depth cs =>
    .mk "DokeNode" "heading" (extract_text_content_from_node (.heading depth cs))
      (extract_raw_content (.heading depth cs) original_content) (some depth)
      line column (convert_mdast_list cs original_content line column)
      (extract_wiki_links (.heading depth cs)) none false
  | .paragraph cs =>
    .mk "DokeNode" "paragraph" (extract_text_content_from_node (.paragraph cs))
      (extract_raw_content (.paragraph cs) original_content) none
      line column (convert_mdast_list cs original_content line column)
      (extract_wiki_links (.paragraph cs)) none false
  | .list ordered cs =>
    .mk "DokeNode" "list" none
      (extract_raw_content (.list ordered cs) original_content) none
      line column (convert_mdast_list cs original_content line column)
      (extract_wiki_links (.list ordered cs)) (some ordered) false
  | .listItem cs =>
    .mk "DokeNode" "list_item" (extract_text_content_from_node (.listItem cs))
      (extract_raw_content (.listItem cs) original_content) none
      line column (convert_mdast_list cs original_content line column)
      (extract_wiki_links (.listItem cs)) none false
  | .text v =>
    .mk "DokeNode" "text" (extract_text_content_from_node (.text v)) v none
      line column [] (extract_wiki_links_from_text v) none false
  | _ =>
    .mk "DokeNode" "unknown" none "" none line column [] [] none false

def convert_mdast_list : List MdNode → String → Nat → Nat → List DokeNode
  | [], _, _, _ => []
  | n :: ns, o, l, c => convert_mdast_node n o l c :: convert_mdast_list ns o l c
end

mutual
/-- `resolved = false` on a node and, recursively, on all its descendants. -/
def allResolvedFalse : DokeNode → Bool
  | .mk _ _ _ _ _ _ _ cs _ _ r => !r && allResolvedFalseList cs

def allResolvedFalseList : List DokeNode → Bool
  | [] => true
  | n :: ns => allResolvedFalse n && allResolvedFalseList ns
end

/-- The `Yaml` value type of the external yaml_rust2 crate: reals keep their
source text, hashes are insertion-ordered key/value lists. -/
inductive Yaml where
  | real (s : String)
  | int (i : Int)
  | str (s : String)
  | bool (b : Bool)
  | arr (items : List Yaml)
  | hash (entries : List (Yaml × Yaml))
  | alias (a : Nat)
  | null
  | badValue

/-- JSON-like values (serde_json `Value`); a finite float is represented by
the source text it was parsed from, which is enough precision for every use
this development makes of it. -/
inductive Value where
  | null
  | bool (b : Bool)
  | numI (i : Int)
  | numF (s : String)
  | str (s : String)
  | arr (items : List Value)
  | obj (fields : List (String × Value))

/-- Classification of a parsed f64: finite, or infinite/NaN. -/
inductive FpKind where
  | finite
  | nonfinite
deriving DecidableEq

/-- Modelled from Rust core `str::parse::<f64>` as used at
src/parsers/doke_parser.rs line 429: accepts an optional sign, the special
words inf/infinity/nan (case-insensitive, non-finite), or a decimal mantissa
with optional fraction and exponent.  Whether a finite-looking decimal
overflows to infinity is decided by its decimal magnitude: values of
magnitude `10^309` or more overflow, values below `10^308` do not (the model
treats the borderline magnitude `10^308` as finite; no input in this
development lies on that border). -/
def rustParseF64 (v : List Char) : Option FpKind :=
  let w := match v with
    | '+' :: r => r
    | '-' :: r => r
    | r => r
  let wl := w.map Char.toLower
  if wl = "inf".data ∨ wl = "infinity".data ∨ wl = "nan".data then some .nonfinite
  else
    let intPart := w.takeWhile Char.isDigit
    let rest1 := w.drop intPart.length
    let fracOk : Bool × List Char :=
      match rest1 with
      | '.' :: r =>
        let fr := r.takeWhile Char.isDigit
        (true, r.drop fr.length)
      | r => (false, r)
    let rest2 := fracOk.2
    let expVal : Option Int :=
      match rest2 with
      | 'e' :: r | 'E' :: r =>
        let (sgn, digs) := match r with
          | '+' :: rr => ((1 : Int), rr)
          | '-' :: rr => ((-1 : Int), rr)
          | rr => ((1 : Int), rr)
        if digs ≠ [] ∧ digs.all Char.isDigit then
          some (sgn * (digs.foldl (fun a c => a * 10 + (c.toNat - '0'.toNat)) 0 : Nat))
        else none
      | [] => some 0
      | _ => none
    let hasDigits : Bool := !intPart.isEmpty || (match rest1 with
      | '.' :: r => !(r.takeWhile Char.isDigit).isEmpty
      | _ => false)
    match expVal with
    | none => none
    | some e =>
      if hasDigits = true then
        let sig := intPart.dropWhile (· = '0')
        if e + sig.length ≥ 310 then some .nonfinite else some .finite
      else none

/-- The i64 parse yaml_rust2 tries before the real parse: an optional sign
followed by decimal digits, within the 64-bit signed range. -/
def parseI64 (v : List Char) : Option Int :=
  let (sgn, digs) := match v with
    | '-' :: r => ((-1 : Int), r)
    | r => ((1 : Int), r)
  if digs ≠ [] ∧ digs.all Char.isDigit then
    let n : Nat := digs.foldl (fun a c => a * 10 + (c.toNat - '0'.toNat)) 0
    let i : Int := sgn * n
    if -(2 ^ 63) ≤ i ∧ i < 2 ^ 63 then some i else none
  else none

/-- yaml_rust2's `parse_f64`: the dotted special forms, or a Rust f64 parse
that succeeds. -/
def yamlF64Ok (v : List Char) : Bool :=
  decide (String.mk v ∈ [".inf", "+.inf", "-.inf", ".Inf", "+.Inf", "-.Inf",
    ".INF", "+.INF", "-.INF", ".nan", ".NaN", ".NAN"]) || (rustParseF64 v).isSome

/-- Modelled from the external yaml_rust2 crate: the scalar typing applied
to an unquoted value (null and booleans, then i64, then real, else string). -/
def scalarYaml (v : List Char) : Yaml :=
  if v = [] ∨ v = "~".data ∨ v = "null".data then .null
  else if v = "true".data then .bool true
  else if v = "false".data then .bool false
  else match parseI64 v with
    | some i => .int i
    | none => if yamlF64Ok v then .real (String.mk v) else .str (String.mk v)

/-- Split a character list at newlines. -/
def splitNl : List Char → List (List Char)
  | [] => [[]]
  | '\n' :: rest => [] :: splitNl rest
  | c :: rest =>
    match splitNl rest with
    | l :: ls => (c :: l) :: ls
    | [] => [[c]]

/-- Trim spaces on both ends. -/
def trimSpaces (l : List Char) : List Char :=
  ((l.dropWhile (· = ' ')).reverse.dropWhile (· = ' ')).reverse

/-- Modelled from the external yaml_rust2 crate
(`YamlLoader::load_from_str`), on the subset of metadata blocks this
development evaluates: blank lines are skipped, every other line is a
top-level `key: value` mapping entry; a double-quoted value without a
closing quote is a scan error; unquoted values get yaml_rust2's scalar
typing.  One line of one entry at a time; flow collections, nesting and
multi-document streams are outside the subset. -/
def yamlLoadLine (l : List Char) : Except String (Option (Yaml × Yaml)) :=
  if l.all isWs then .ok none
  else
    let key := l.takeWhile (· != ':')
    match l.dropWhile (· != ':') with
    | ':' :: valRaw =>
      let v := trimSpaces valRaw
      (match v with
       | '"' :: vr =>
         if vr ≠ [] ∧ vr.getLast? = some '"' then
           .ok (some (.str (String.mk (trimSpaces key)), .str (String.mk vr.dropLast)))
         else .error "while scanning a quoted scalar, found unexpected end of stream"
       | _ => .ok (some (.str (String.mk (trimSpaces key)), scalarYaml v)))
    | _ => .error "could not find expected ':'"

def yamlLoadLines : List (List Char) → Except String (List (Yaml × Yaml))
  | [] => .ok []
  | l :: ls =>
    match yamlLoadLine l with
    | .error e => .error e
    | .ok none => yamlLoadLines ls
    | .ok (some kv) =>
      match yamlLoadLines ls with
      | .error e => .error e
      | .ok rest => .ok (kv :: rest)

/-- Modelled from the external yaml_rust2 crate: load a stream of documents;
an input with no content yields an empty document list. -/
def yamlLoad (s : List Char) : Except String (List Yaml) :=
  match yamlLoadLines (splitNl s) with
  | .error e => .error e
  | .ok [] => .ok []
  | .ok entries => .ok [Yaml.hash entries]

/-- The dotted-path join of `parse_yaml_to_value`. -/
def joinPath (current : String) (key : String) : String :=
  if current = "" then key else current ++ "." ++ key

/-- HashMap insert: overwrite the value of an existing key, otherwise add
the binding (the map is kept as an insertion-ordered association list). -/
def mapInsert (m : List (String × Value)) (k : String) (v : Value) :
    List (String × Value) :=
  if m.any (fun p => p.1 = k) then
    m.map (fun p => if p.1 = k then (k, v) else p)
  else m ++ [(k, v)]

def mapLookup : List (String × Value) → String → Option Value
  | [], _ => none
  | (k', v) :: rest, k => if k' = k then some v else mapLookup rest k

mutual
/-- `parse_yaml_to_value` (src/parsers/doke_parser.rs lines 408-448):
flattens nested hashes into dotted paths, maps scalars directly, arrays
into arrays of flattened sub-objects (path prefix reset inside elements),
null to null; non-string hash keys, alias and bad values are skipped.
A real whose text Rust fails to parse as f64 is silently dropped; a real
whose parse yields an infinite or NaN f64 reaches
`serde_json::Number::from_f64(num).unwrap()`, which panics — the panic is
modelled as `none`. -/
def parse_yaml_to_value (yaml : Yaml) (result : List (String × Value))
    (current_path : String) : Option (List (String × Value)) :=
  match yaml with
  | .hash entries => parse_yaml_hash entries result current_path
  | .str s => some (mapInsert result current_path (.str s))
  | .int i => some (mapInsert result current_path (.numI i))
  | .real f =>
    match rustParseF64 f.data with
    | some .finite => some (mapInsert result current_path (.numF f))
    | some .nonfinite => none
    | none => some result
  | .bool b => some (mapInsert result current_path (.bool b))
  | .arr items =>
    match parse_yaml_arr items with
    | some vs => some (mapInsert result current_path (.arr vs))
    | none => none
  | .null => some (mapInsert result current_path .null)
  | _ => some result

def parse_yaml_hash (entries : List (Yaml × Yaml))
    (result : List (String × Value)) (current_path : String) :
    Option (List (String × Value)) :=
  match entries with
  | [] => some result
  | (key, value) :: rest =>
    match key with
    | .str key_str =>
      match parse_yaml_to_value value result (joinPath current_path key_str) with
      | some r2 => parse_yaml_hash rest r2 current_path
      | none => none
    | _ => parse_yaml_hash rest result current_path

def parse_yaml_arr (items : List Yaml) : Option (List Value) :=
  match items with
  | [] => some []
  | y :: ys =>
    match parse_yaml_to_value y [] "" with
    | some tm =>
      match parse_yaml_arr ys with
      | some vs => some (.obj tm :: vs)
      | none => none
    | none => none
end

/-- Index of the last newline of a list, if any. -/
def lastNlIdx : List Char → Option Nat
  | [] => none
  | c :: rest =>
    match lastNlIdx rest with
    | some i => some (i + 1)
    | none => if c = '\n' then some 0 else none

/-- The closing `\s*\n` of the frontmatter regex, applied after the literal
`\n---`: the greedy whitespace run must contain a newline; the engine
backtracks to the last newline inside the run and the remainder is the body
capture. -/
def closeDelim (v : List Char) : Option (List Char) :=
  match lastNlIdx (v.takeWhile isWs) with
  | some i => some (v.drop (i + 1))
  | none => none

/-- The lazy group `([\s\S]*?)` followed by `\n---\s*\n([\s\S]*)`: the
shortest prefix (the metadata capture) after which the closing delimiter
matches wins. -/
def sepSearch : List Char → Option (List Char × List Char)
  | [] => none
  | c :: rest =>
    match c, rest with
    | '\n', '-' :: '-' :: '-' :: v =>
      (match closeDelim v with
       | some body => some ([], body)
       | none =>
         match sepSearch rest with
         | some (m, b) => some (c :: m, b)
         | none => none)
    | _, _ =>
      match sepSearch rest with
      | some (m, b) => some (c :: m, b)
      | none => none

/-- Indices of newlines in a list, in decreasing order. -/
def nlIdxsDesc : List Char → List Nat
  | [] => []
  | c :: rest =>
    let tl := (nlIdxsDesc rest).map (· + 1)
    if c = '\n' then tl ++ [0] else tl

def tryCands : List (List Char) → Option (List Char × List Char)
  | [] => none
  | u :: us =>
    match sepSearch u with
    | some r => some r
    | none => tryCands us

/-- The anchored frontmatter regex `^---\s*\n([\s\S]*?)\n---\s*\n([\s\S]*)`
of `parse_frontmatter` (src/parsers/doke_parser.rs line 60): the input must
open with `---`; the greedy `\s*` prefers the latest newline of the leading
whitespace run, backtracking to earlier newlines if the rest of the pattern
finds no closing delimiter; on a match the two captures are the metadata
text and the body. -/
def frontmatterSplit (s : List Char) : Option (List Char × List Char) :=
  match s with
  | '-' :: '-' :: '-' :: t =>
    tryCands ((nlIdxsDesc (t.takeWhile isWs)).map (fun i => t.drop (i + 1)))
  | _ => none

/-- `SourcePosition` (src/error.rs lines 8-13). -/
structure SourcePosition where
  line : Nat
  column : Nat
  byte_offset : Nat
deriving DecidableEq

/-- `SourceSpan` (src/error.rs lines 26-30). -/
structure SourceSpan where
  start : SourcePosition
  stop : SourcePosition
deriving DecidableEq

/-- `DokeError` (src/error.rs lines 33-139).  Paths are strings; wrapped
foreign errors (io, serde_json, yaml scan) are carried as their message
strings.  `stxError` embeds the variant named `SyntaxError` in the source. -/
inductive DokeError where
  | invalidFrontmatter (message : String) (file : String) (line : Nat)
  | stxError (message : String) (line : Nat) (col : Nat) (file : String)
      (parser : String) (src : Option DokeError)
  | validationError (message : String) (file : String) (parser : String)
      (span : Option SourceSpan)
  | typeMismatch (expected : String) (found : String) (file : String)
      (parser : String)
  | parserNotFound (parser : String) (target_type : String)
  | ioError (src : String) (file : String)
  | fileNotFound (path : String)
  | configError (message : String) (file : String) (src : Option DokeError)
  | jsonError (src : String) (file : String)
  | yamlError (src : String) (file : String)
  | exportError (message : String) (file : String) (src : Option DokeError)
  | importError (message : String) (file : String)
  | grammarError (message : String) (src : Option DokeError)
  | internalError (message : String)
  | notImplemented (message : String)

/-- `DokeError::with_source` (src/error.rs lines 213-247): the variant
named SyntaxError in the source, ConfigError, ExportError and GrammarError
get the cause boxed into their source slot; every other variant is returned
unchanged by the trailing catch-all arm. -/
def DokeError.with_source (e : DokeError) (source : DokeError) : DokeError :=
  match e with
  | .stxError message line col file parser _ =>
    .stxError message line col file parser (some source)
  | .configError message file _ => .configError message file (some source)
  | .exportError message file _ => .exportError message file (some source)
  | .grammarError message _ => .grammarError message (some source)
  | _ => e

/-- The inner-cause slot of a variant, when it has one. -/
def DokeError.sourceOf : DokeError → Option DokeError
  | .stxError _ _ _ _ _ s => s
  | .configError _ _ s => s
  | .exportError _ _ s => s
  | .grammarError _ s => s
  | _ => none

/-- Whether the variant has a source slot (the four arms `with_source`
rebuilds). -/
def DokeError.hasSourceSlot : DokeError → Bool
  | .stxError _ _ _ _ _ _ => true
  | .configError _ _ _ => true
  | .exportError _ _ _ => true
  | .grammarError _ _ => true
  | _ => false

/-- The variant with its source slot (if any) cleared. -/
def DokeError.eraseSource : DokeError → DokeError
  | .stxError message line col file parser _ =>
    .stxError message line col file parser none
  | .configError message file _ => .configError message file none
  | .exportError message file _ => .exportError message file none
  | .grammarError message _ => .grammarError message none
  | e => e

/-- `parse_frontmatter` (src/parsers/doke_parser.rs lines 59-89).  On a
regex match: a YAML scan failure or an empty document set is an
`InvalidFrontmatter` error with placeholder file "unknown" and line 0,
otherwise the first document is flattened and paired with the body capture.
Without a match the whole input is the body and the metadata map is empty.
The flattener's panic on a non-finite real propagates as `none`. -/
def parse_frontmatter (content : String) :
    Option (Except DokeError (List (String × Value) × String)) :=
  match frontmatterSplit content.data with
  | some (yaml_content, body_content) =>
    (match yamlLoad yaml_content with
     | .error e => some (.error (.invalidFrontmatter
         ("YAML parsing error: " ++ e) "unknown" 0))
     | .ok docs =>
       match docs with
       | [] => some (.error (.invalidFrontmatter
           "Empty YAML frontmatter" "unknown" 0))
       | doc :: _ =>
         match parse_yaml_to_value doc [] "" with
         | some frontmatter => some (.ok (frontmatter, String.mk body_content))
         | none => none)
  | none => some (.ok ([], content))

/-- `ParserContext` (src/parser_api.rs lines 23-38); paths are strings. -/
structure ParserContext where
  dokedex_root : String
  project_root : String
  resource_type : String
  current_file : String
  parser_name : String
  parent_resource : Option (List (String × Value))
  metadata : List (String × Value)

/-- `parse_markdown_body` (src/parsers/doke_parser.rs lines 91-109),
parameterised by the external markdown crate's `to_mdast`: a parse error
becomes a `ValidationError` carrying the context's file and parser name;
on success the children of the root node are converted, a non-root result
yields no nodes. -/
def parse_markdown_body (to_mdast : String → Except String MdNode)
    (content : String) (context : ParserContext) :
    Except DokeError (List DokeNode) :=
  match to_mdast content with
  | .error e => .error (.validationError ("Markdown parsing error: " ++ e)
      context.current_file context.parser_name none)
  | .ok ast =>
    .ok (match ast with
         | .root children => convert_mdast_list children content 1 1
         | _ => [])

/-- `DokeMarkdownParser::parse` (src/parsers/doke_parser.rs lines 35-44),
parameterised by the external markdown crate; the result map is represented
as the flattened frontmatter together with the converted body nodes (the
final serde_json serialisation of both into one string-keyed map is not
modelled).  A panic anywhere in the chain propagates as `none`. -/
def DokeMarkdownParser_parse (to_mdast : String → Except String MdNode)
    (context : ParserContext) (content : String) :
    Option (Except DokeError (List (String × Value) × List DokeNode)) :=
  match parse_frontmatter content with
  | none => none
  | some (.error e) => some (.error e)
  | some (.ok (frontmatter, body)) =>
    match parse_markdown_body to_mdast body context with
    | .error e => some (.error e)
    | .ok nodes => some (.ok (frontmatter, nodes))

/-- Modelled from the external markdown crate (`to_mdast` with GFM
options) at the single input this development evaluates end to end: in
CommonMark/GFM, `[[Ref]]` has no special meaning without a matching link
reference definition, so the line stays one literal text leaf; the ATX
heading and the following paragraph are the two root children. -/
def to_mdast_model (s : String) : Except String MdNode :=
  if s = "# Title\nBody with [[Ref]]." then
    .ok (.root [.heading 1 [.text "Title"],
                .paragraph [.text "Body with [[Ref]]."]])
  else .error "input outside the modelled subset"

/-- A user parser as the registry sees it: an identity and the type names
it declares via `supported_types` (src/parser_api.rs line 135). -/
structure UserParser where
  pid : Nat
  supported_types : List String
deriving DecidableEq

/-- Modelled from Rust `str::to_lowercase` on the per-character subset the
registry uses (ASCII and simple one-to-one Unicode lowercasings). -/
def toLowerStr (s : String) : String := String.mk (s.data.map Char.toLower)

/-- `ParserRegistry::new` (src/parser_api.rs lines 175-179): the empty
lookup table, represented as a function from lowercased type name to
registered parser. -/
def emptyRegistry : String → Option UserParser := fun _ => none

/-- `ParserRegistry::register` (src/parser_api.rs lines 182-186): insert
the parser under the lowercasing of every supported name, overwriting any
previous registrant. -/
def register (reg : String → Option UserParser) (parser : UserParser) :
    String → Option UserParser :=
  parser.supported_types.foldl
    (fun r type_name => fun k => if k = toLowerStr type_name then some parser else r k)
    reg

/-- `ParserRegistry::getParser` (src/parser_api.rs lines 198-200):
lowercase lookup. -/
def getParser (reg : String → Option UserParser) (resource_type : String) :
    Option UserParser :=
  reg (toLowerStr resource_type)

/-- A registry built by registering a list of parsers, in order, into the
empty registry. -/
def registryOfList (ps : List UserParser) : String → Option UserParser :=
  ps.foldl register emptyRegistry

/-- C2: a document on which the frontmatter regex finds no match parses to
an empty metadata map with the body equal to the whole original text, and
this is an `ok` result, never an error. -/
theorem parse_frontmatter_no_match (content : String)
    (h : frontmatterSplit content.data = none) :
    parse_frontmatter content = some (.ok ([], content)) := by
  unfold parse_frontmatter
  rw [h]

theorem parse_frontmatter_no_match_witness :
    frontmatterSplit "This is content without frontmatter".data = none ∧
    parse_frontmatter "This is content without frontmatter" =
      some (.ok ([], "This is content without frontmatter")) :=
  ⟨rfl, parse_frontmatter_no_match _ rfl⟩

/-- C3: when the frontmatter delimiters match but the enclosed block either
fails the YAML scan or yields an empty document set, `parse_frontmatter`
returns an `InvalidFrontmatter` error — never a silent empty map. -/
theorem parse_frontmatter_invalid_frontmatter (content : String)
    (y b : List Char)
    (hsplit : frontmatterSplit content.data = some (y, b))
    (hbad : (∃ e, yamlLoad y = .error e) ∨ yamlLoad y = .ok []) :
    ∃ msg, parse_frontmatter content =
      some (.error (.invalidFrontmatter msg "unknown" 0)) := by
  unfold parse_frontmatter
  simp only [hsplit]
  rcases hbad with ⟨e, he⟩ | hempty
  · simp only [he]
    exact ⟨_, rfl⟩
  · simp only [hempty]
    exact ⟨_, rfl⟩

theorem parse_frontmatter_invalid_frontmatter_witness :
    frontmatterSplit "---\n\n---\nBody".data = some ([], "Body".data) ∧
    ((∃ e, yamlLoad ([] : List Char) = .error e) ∨
      yamlLoad ([] : List Char) = .ok []) ∧
    ∃ msg, parse_frontmatter "---\n\n---\nBody" =
      some (.error (.invalidFrontmatter msg "unknown" 0)) :=
  ⟨rfl, .inr rfl, parse_frontmatter_invalid_frontmatter _ _ _ rfl (.inr rfl)⟩

/-- C10: every error `parse_frontmatter` produces is an `InvalidFrontmatter`
carrying the placeholder file path "unknown" and line 0, for every input
document. -/
theorem parse_frontmatter_error_placeholder (content : String) (e : DokeError)
    (h : parse_frontmatter content = some (.error e)) :
    ∃ msg, e = .invalidFrontmatter msg "unknown" 0 := by
  unfold parse_frontmatter at h
  rcases hs : frontmatterSplit content.data with _ | ⟨y, b⟩
  · simp only [hs] at h
    simp at h
  · simp only [hs] at h
    rcases hl : yamlLoad y with e' | docs
    · simp only [hl] at h
      simp at h
      exact ⟨_, h.symm⟩
    · simp only [hl] at h
      cases docs with
      | nil =>
        simp at h
        exact ⟨_, h.symm⟩
      | cons doc rest =>
        rcases hp : parse_yaml_to_value doc [] "" with _ | fm
        · simp only [hp] at h
          simp at h
        · simp only [hp] at h
          simp at h

theorem parse_frontmatter_error_placeholder_witness :
    parse_frontmatter "---\nname: \"Test\n---\nBody" =
      some (.error (.invalidFrontmatter
        ("YAML parsing error: " ++
         "while scanning a quoted scalar, found unexpected end of stream")
        "unknown" 0)) ∧
    ∃ msg, (DokeError.invalidFrontmatter
        ("YAML parsing error: " ++
         "while scanning a quoted scalar, found unexpected end of stream")
        "unknown" 0) = .invalidFrontmatter msg "unknown" 0 :=
  ⟨rfl, parse_frontmatter_error_placeholder "---\nname: \"Test\n---\nBody" _ rfl⟩

/-- C7: flattening joins nested mapping keys with a dot — `stats: (health: N)`
produces exactly the entry `stats.health` with the same scalar, and no entry
for `stats` itself; string scalars, booleans and null map directly under
their path. -/
theorem parse_yaml_to_value_flattening :
    (∀ n : Int, parse_yaml_to_value
        (.hash [(.str "stats", .hash [(.str "health", .int n)])]) [] "" =
        some [("stats.health", .numI n)]) ∧
    (∀ (s : String) (k : String) (m : List (String × Value)),
        parse_yaml_to_value (.str s) m k = some (mapInsert m k (.str s))) ∧
    (∀ (b : Bool) (k : String) (m : List (String × Value)),
        parse_yaml_to_value (.bool b) m k = some (mapInsert m k (.bool b))) ∧
    (∀ (k : String) (m : List (String × Value)),
        parse_yaml_to_value .null m k = some (mapInsert m k .null)) := by
  refine ⟨fun n => rfl, fun s k m => rfl, fun b k m => rfl, fun k m => rfl⟩

/-- C8 counterexample: `with_source` on a `ValidationError` does not attach
the cause — the variant has no source slot and is returned unchanged. -/
theorem with_source_validation_unchanged :
    (DokeError.validationError "m" "f.md" "P" none).with_source
        (.internalError "cause") =
      .validationError "m" "f.md" "P" none ∧
    ((DokeError.validationError "m" "f.md" "P" none).with_source
        (.internalError "cause")).sourceOf = none :=
  ⟨rfl, rfl⟩

/-- C8 amended: `with_source` attaches the cause exactly on the variants
that have a source slot (the source's SyntaxError, ConfigError, ExportError
and GrammarError), leaving their other fields intact, and returns every
other variant — `ValidationError` included — unchanged. -/
theorem with_source_amended (e c : DokeError) :
    (e.hasSourceSlot = false → e.with_source c = e) ∧
    (e.hasSourceSlot = true → (e.with_source c).sourceOf = some c ∧
      (e.with_source c).eraseSource = e.eraseSource) := by
  cases e <;>
    simp [DokeError.with_source, DokeError.hasSourceSlot, DokeError.sourceOf,
      DokeError.eraseSource]

theorem with_source_amended_witness :
    ((DokeError.validationError "m" "f" "P" none).hasSourceSlot = false ∧
      (DokeError.validationError "m" "f" "P" none).with_source
          (.internalError "c") = .validationError "m" "f" "P" none) ∧
    ((DokeError.configError "m" "f" none).hasSourceSlot = true ∧
      ((DokeError.configError "m" "f" none).with_source
          (.internalError "c")).sourceOf = some (.internalError "c")) :=
  ⟨⟨rfl, (with_source_amended (.validationError "m" "f" "P" none)
      (.internalError "c")).1 rfl⟩,
   ⟨rfl, ((with_source_amended (.configError "m" "f" none)
      (.internalError "c")).2 rfl).1⟩⟩

/-- C9: the YAML real `1e400` parses to an infinite f64, on which the
flattener's `serde_json::Number::from_f64(num).unwrap()` panics, so the
whole parse is a process failure (modelled `none`) instead of an error
result — for any markdown backend and any context. -/
theorem doke_parse_panics_on_overflowing_real
    (to_mdast : String → Except String MdNode) (context : ParserContext) :
    DokeMarkdownParser_parse to_mdast context "---\nx: 1e400\n---\nBody" =
      none := by
  have h : parse_frontmatter "---\nx: 1e400\n---\nBody" = none := rfl
  unfold DokeMarkdownParser_parse
  rw [h]

/-- C6 evaluated on the code: parsing `"# Title\nBody with [[Ref]]."` yields
empty metadata and two nodes — the heading (level 1, text "Title", no
references) and the paragraph, whose extracted text is the raw
`"Body with [[Ref]]."` with the wiki-link brackets kept (not
`"Body with Ref."`), carrying one reference named "Ref". -/
theorem doke_parse_title_ref_eval (context : ParserContext) :
    DokeMarkdownParser_parse to_mdast_model context "# Title\nBody with [[Ref]]." =
      some (.ok ([],
        [.mk "DokeNode" "heading" (some "Title") "Heading level 1" (some 1) 1 1
           [.mk "DokeNode" "text" (some "Title") "Title" none 1 1 [] [] none false]
           [] none false,
         .mk "DokeNode" "paragraph" (some "Body with [[Ref]].") "Paragraph content"
           none 1 1
           [.mk "DokeNode" "text" (some "Body with [[Ref]].") "Body with [[Ref]]."
              none 1 1 []
              [{ resource_type := none, resource_name := "Ref", resolved := false }]
              none false]
           [{ resource_type := none, resource_name := "Ref", resolved := false }]
           none false])) := rfl

theorem register_lookup (parser : UserParser)
    (reg : String → Option UserParser) (k : String) :
    register reg parser k =
      if k ∈ parser.supported_types.map toLowerStr then some parser
      else reg k := by
  unfold register
  generalize parser.supported_types = types
  induction types generalizing reg with
  | nil => simp
  | cons t ts ih =>
    rw [List.foldl_cons, ih]
    simp only [List.map_cons, List.mem_cons]
    by_cases hk : k ∈ ts.map toLowerStr
    · simp [hk]
    · by_cases ht : k = toLowerStr t <;> simp [hk, ht]

theorem registryOfList_miss (t : String) (ps : List UserParser) :
    ∀ reg : String → Option UserParser,
      (∀ q ∈ ps, t ∉ q.supported_types.map toLowerStr) →
      (ps.foldl register reg) t = reg t := by
  induction ps with
  | nil => intro reg _; rfl
  | cons p ps ih =>
    intro reg h
    rw [List.foldl_cons, ih _ (fun q hq => h q (List.mem_cons_of_mem _ hq))]
    rw [register_lookup]
    simp [h p (List.mem_cons_self _ _)]

/-- C5: after registering a parser, `getParser` resolves every type name
whose lowercasing matches a lowercased supported name (case-insensitively);
lookups of never-registered lowercasings in a registry built from any list
of registrations return none; and when two registrations claim the same
lowercased name the later one wins. -/
theorem parser_registry_case_insensitive :
    (∀ (reg : String → Option UserParser) (p : UserParser) (t : String),
        toLowerStr t ∈ p.supported_types.map toLowerStr →
        getParser (register reg p) t = some p) ∧
    (∀ (ps : List UserParser) (t : String),
        (∀ q ∈ ps, toLowerStr t ∉ q.supported_types.map toLowerStr) →
        getParser (registryOfList ps) t = none) ∧
    (∀ (reg : String → Option UserParser) (p₁ p₂ : UserParser) (t : String),
        toLowerStr t ∈ p₂.supported_types.map toLowerStr →
        getParser (register (register reg p₁) p₂) t = some p₂) := by
  refine ⟨?_, ?_, ?_⟩
  · intro reg p t ht
    unfold getParser
    rw [register_lookup]
    simp [ht]
  · intro ps t h
    unfold getParser registryOfList
    rw [registryOfList_miss (toLowerStr t) ps _ h]
    rfl
  · intro reg p₁ p₂ t ht
    unfold getParser
    rw [register_lookup]
    simp [ht]

theorem parser_registry_case_insensitive_witness :
    (toLowerStr "item" ∈ ["Item", "Boot"].map toLowerStr ∧
      getParser (register emptyRegistry ⟨7, ["Item", "Boot"]⟩) "item" =
        some ⟨7, ["Item", "Boot"]⟩) ∧
    (toLowerStr "BOOT" ∈ ["Item", "Boot"].map toLowerStr ∧
      getParser (register emptyRegistry ⟨7, ["Item", "Boot"]⟩) "BOOT" =
        some ⟨7, ["Item", "Boot"]⟩) ∧
    ((∀ q ∈ [(⟨7, ["Item", "Boot"]⟩ : UserParser)],
        toLowerStr "unregistered" ∉ q.supported_types.map toLowerStr) ∧
      getParser (registryOfList [⟨7, ["Item", "Boot"]⟩]) "unregistered" =
        none) ∧
    (toLowerStr "Item" ∈ ["ITEM"].map toLowerStr ∧
      getParser (register (register emptyRegistry ⟨7, ["Item", "Boot"]⟩)
          ⟨8, ["ITEM"]⟩) "Item" = some ⟨8, ["ITEM"]⟩) :=
  ⟨⟨by decide, parser_registry_case_insensitive.1 _ _ _ (by decide)⟩,
   ⟨by decide, parser_registry_case_insensitive.1 _ _ _ (by decide)⟩,
   ⟨by decide, parser_registry_case_insensitive.2.1 _ _ (by decide)⟩,
   ⟨by decide, parser_registry_case_insensitive.2.2 _ _ _ _ (by decide)⟩⟩

mutual
theorem convert_resolved_aux (n : MdNode) (o : String) (l c : Nat) :
    allResolvedFalse (convert_mdast_node n o l c) = true := by
  cases n with
  | heading depth cs =>
    simp only [convert_mdast_node, allResolvedFalse, Bool.not_false, Bool.true_and]
    exact convert_list_resolved_aux cs o l c
  | paragraph cs =>
    simp only [convert_mdast_node, allResolvedFalse, Bool.not_false, Bool.true_and]
    exact convert_list_resolved_aux cs o l c
  | list ordered cs =>
    simp only [convert_mdast_node, allResolvedFalse, Bool.not_false, Bool.true_and]
    exact convert_list_resolved_aux cs o l c
  | listItem cs =>
    simp only [convert_mdast_node, allResolvedFalse, Bool.not_false, Bool.true_and]
    exact convert_list_resolved_aux cs o l c
  | text v => rfl
  | strong cs => rfl
  | emphasis cs => rfl
  | inlineCode v => rfl
  | link cs => rfl
  | image alt => rfl
  | delete cs => rfl
  | root cs => rfl
  | other => rfl
termination_by sizeOf n

theorem convert_list_resolved_aux (ns : List MdNode) (o : String) (l c : Nat) :
    allResolvedFalseList (convert_mdast_list ns o l c) = true := by
  cases ns with
  | nil => rfl
  | cons n ns =>
    simp only [convert_mdast_list, allResolvedFalseList, Bool.and_eq_true]
    exact ⟨convert_resolved_aux n o l c, convert_list_resolved_aux ns o l c⟩
termination_by sizeOf ns
end

/-- C4: every node of the tree `convert_mdast_node` returns — all node
kinds, all descendants, any input position — has `resolved = false`. -/
theorem convert_mdast_node_resolved_false (node : MdNode)
    (original_content : String) (line column : Nat) :
    allResolvedFalse (convert_mdast_node node original_content line column) =
      true :=
  convert_resolved_aux node original_content line column

theorem takeWhile_bang_append (x z : List Char) (hx : ∀ ch ∈ x, ch ≠ ']') :
    ((x ++ ']' :: z).takeWhile (· != ']')) = x := by
  induction x with
  | nil => simp [List.takeWhile_cons]
  | cons c x ih =>
    have hc : c ≠ ']' := hx c (by simp)
    simp only [List.cons_append, List.takeWhile_cons]
    simp [hc, ih (fun ch h => hx ch (by simp [h]))]

theorem dropWhile_bang_append (x z : List Char) (hx : ∀ ch ∈ x, ch ≠ ']') :
    ((x ++ ']' :: z).dropWhile (· != ']')) = ']' :: z := by
  induction x with
  | nil => simp [List.dropWhile_cons]
  | cons c x ih =>
    have hc : c ≠ ']' := hx c (by simp)
    simp only [List.cons_append, List.dropWhile_cons]
    simp [hc, ih (fun ch h => hx ch (by simp [h]))]

theorem scanF_cons_not_open (f : Nat) (c : Char) (rest : List Char)
    (hc : c ≠ '[') : scanF (f + 1) (c :: rest) = scanF f rest := by
  simp [scanF, hc]

theorem scanF_two_open_not (f : Nat) (d : Char) (rest2 : List Char)
    (hd : d ≠ '[') : scanF (f + 1) ('[' :: d :: rest2) = scanF f (d :: rest2) := by
  simp [scanF, hd]

theorem scanF_match (f : Nat) (x rest : List Char) (hx : x ≠ [])
    (hxc : ∀ ch ∈ x, ch ≠ ']') :
    scanF (f + 1) ('[' :: '[' :: (x ++ ']' :: ']' :: rest)) =
      String.mk x :: scanF f rest := by
  simp [scanF, takeWhile_bang_append x (']' :: rest) hxc,
    dropWhile_bang_append x (']' :: rest) hxc, hx]

theorem length_dropWhile_le_aux (p : Char → Bool) :
    ∀ l : List Char, (l.dropWhile p).length ≤ l.length := by
  intro l
  induction l with
  | nil => simp
  | cons c l ih =>
    rw [List.dropWhile_cons]
    by_cases h : p c = true
    · simp only [h, if_pos rfl, reduceIte]
      calc (l.dropWhile p).length ≤ l.length := ih
        _ ≤ (c :: l).length := by simp
    · simp [h]

theorem scanF_congr (N : Nat) : ∀ (l : List Char) (f₁ f₂ : Nat), l.length ≤ N →
    l.length < f₁ → l.length < f₂ → scanF f₁ l = scanF f₂ l := by
  induction N with
  | zero =>
    intro l f₁ f₂ hN h1 h2
    have hl : l = [] := List.eq_nil_of_length_eq_zero (Nat.le_zero.mp hN)
    subst hl
    cases f₁ with
    | zero => omega
    | succ g₁ =>
      cases f₂ with
      | zero => omega
      | succ g₂ => rfl
  | succ N ih =>
    intro l f₁ f₂ hN h1 h2
    cases f₁ with
    | zero => omega
    | succ g₁ =>
    cases f₂ with
    | zero => omega
    | succ g₂ =>
    cases l with
    | nil => rfl
    | cons c rest =>
      simp only [List.length_cons] at hN h1 h2
      by_cases hc : c = '['
      · subst hc
        cases rest with
        | nil => rfl
        | cons d rest2 =>
          simp only [List.length_cons] at hN h1 h2
          by_cases hd : d = '['
          · subst hd
            simp only [scanF]
            by_cases hi : rest2.takeWhile (· != ']') = []
            · simp only [hi, if_pos rfl, reduceIte]
              exact ih _ _ _ (by simp only [List.length_cons]; omega)
                (by simp only [List.length_cons]; omega)
                (by simp only [List.length_cons]; omega)
            · rcases hA : rest2.dropWhile (· != ']') with _ | ⟨a, tl⟩
              · simp only [hi, hA, reduceIte]
                exact ih _ _ _ (by simp only [List.length_cons]; omega)
                  (by simp only [List.length_cons]; omega)
                  (by simp only [List.length_cons]; omega)
              · rcases tl with _ | ⟨b, rest3⟩
                · simp only [hi, hA, reduceIte]
                  exact ih _ _ _ (by simp only [List.length_cons]; omega)
                    (by simp only [List.length_cons]; omega)
                    (by simp only [List.length_cons]; omega)
                · have hlen : rest3.length + 2 ≤ rest2.length := by
                    have := length_dropWhile_le_aux (· != ']') rest2
                    rw [hA] at this
                    simpa using this
                  by_cases hab : a = ']' ∧ b = ']'
                  · simp only [hi, hA, reduceIte, if_pos hab]
                    rw [ih rest3 g₁ g₂ (by omega) (by omega) (by omega)]
                  · simp only [hi, hA, reduceIte, if_neg hab]
                    exact ih _ _ _ (by simp only [List.length_cons]; omega)
                      (by simp only [List.length_cons]; omega)
                      (by simp only [List.length_cons]; omega)
          · rw [scanF_two_open_not _ _ _ hd, scanF_two_open_not _ _ _ hd]
            exact ih _ _ _ (by simp only [List.length_cons]; omega)
              (by simp only [List.length_cons]; omega)
              (by simp only [List.length_cons]; omega)
      · rw [scanF_cons_not_open _ _ _ hc, scanF_cons_not_open _ _ _ hc]
        exact ih _ _ _ (by omega) (by omega) (by omega)

/-- A "gap" between wiki-link matches that the regex scan walks through
without starting a match: it contains no `[[` and does not end in `[`
(which would fuse with a following match's opening brackets). -/
def goodGapB : List Char → Bool
  | [] => true
  | c :: rest =>
    if c = '[' then
      match rest with
      | [] => false
      | d :: _ => if d = '[' then false else goodGapB rest
    else goodGapB rest

theorem scan_skip_gap (g : List Char) : ∀ (rest : List Char),
    goodGapB g = true → scanWikiLinks (g ++ rest) = scanWikiLinks rest := by
  induction g with
  | nil => intro rest _; rfl
  | cons c g ih =>
    intro rest hg
    by_cases hc : c = '['
    · subst hc
      cases g with
      | nil => simp [goodGapB] at hg
      | cons d g' =>
        by_cases hd : d = '['
        · simp [goodGapB, hd] at hg
        · have hg' : goodGapB (d :: g') = true := by
            simpa [goodGapB, hd] using hg
          have step : scanWikiLinks (('[' :: d :: g') ++ rest) =
              scanF ((d :: g' ++ rest).length + 1) (d :: g' ++ rest) := by
            show scanF ((('[' :: d :: g') ++ rest).length + 1)
                (('[' :: d :: g') ++ rest) = _
            rw [List.cons_append, List.cons_append]
            rw [show (('[' : Char) :: d :: (g' ++ rest)).length + 1 =
              ((d :: (g' ++ rest)).length + 1) + 1 by simp]
            rw [scanF_two_open_not _ _ _ hd]
          rw [step]
          show scanWikiLinks ((d :: g') ++ rest) = _
          exact ih rest hg'
    · have hg' : goodGapB g = true := by
        cases g with
        | nil => rfl
        | cons d g' => simpa [goodGapB, hc] using hg
      have step : scanWikiLinks ((c :: g) ++ rest) =
          scanF ((g ++ rest).length + 1) (g ++ rest) := by
        show scanF (((c :: g) ++ rest).length + 1) ((c :: g) ++ rest) = _
        rw [List.cons_append]
        rw [show ((c :: (g ++ rest)).length + 1) =
          ((g ++ rest).length + 1) + 1 by simp]
        rw [scanF_cons_not_open _ _ _ hc]
      rw [step]
      exact ih rest hg'

theorem scan_link (x rest : List Char) (hx : x ≠ [])
    (hxc : ∀ ch ∈ x, ch ≠ ']') :
    scanWikiLinks ('[' :: '[' :: (x ++ ']' :: ']' :: rest)) =
      String.mk x :: scanWikiLinks rest := by
  show scanF (('[' :: '[' :: (x ++ ']' :: ']' :: rest)).length + 1) _ = _
  rw [show (('[' :: '[' :: (x ++ ']' :: ']' :: rest)).length + 1) =
    ((x.length + rest.length + 4) + 1) by simp; omega]
  rw [scanF_match _ _ _ hx hxc]
  rw [scanF_congr (x.length + rest.length + 4) rest
    (x.length + rest.length + 4) (rest.length + 1) (by omega) (by omega)
    (by omega)]
  rfl

/-- The canonical text with `k` non-overlapping `[[x]]` occurrences: a gap,
then `[[` name `]]`, repeated, with a final gap. -/
def wikiText : List (List Char × List Char) → List Char → List Char
  | [], final => final
  | (g, x) :: ps, final =>
    g ++ ('[' :: '[' :: (x ++ ']' :: ']' :: wikiText ps final))

theorem scan_wikiText (parts : List (List Char × List Char))
    (final : List Char)
    (hparts : ∀ p ∈ parts, goodGapB p.1 = true ∧ p.2 ≠ [] ∧
      ∀ ch ∈ p.2, ch ≠ ']')
    (hfin : goodGapB final = true) :
    scanWikiLinks (wikiText parts final) =
      parts.map (fun p => String.mk p.2) := by
  induction parts with
  | nil =>
    have h := scan_skip_gap final [] hfin
    rw [List.append_nil] at h
    simpa [wikiText] using h
  | cons p ps ih =>
    obtain ⟨g, x⟩ := p
    obtain ⟨hg, hx, hxc⟩ := hparts (g, x) (by simp)
    show scanWikiLinks (g ++ _) = _
    rw [scan_skip_gap g _ hg, scan_link x _ hx hxc,
      ih (fun q hq => hparts q (by simp [hq]))]
    rfl

/-- C1: on a text assembled from `k` non-overlapping `[[x]]` occurrences
(non-empty names without `]`, separated by gaps that neither contain `[[`
nor end in `[`), the extractor returns exactly `k` records in left-to-right
order, each with no type hint, the matched inner text as name, and
`resolved = false`. -/
theorem extract_wiki_links_from_text_spec
    (parts : List (List Char × List Char)) (final : List Char)
    (hparts : ∀ p ∈ parts, goodGapB p.1 = true ∧ p.2 ≠ [] ∧
      ∀ ch ∈ p.2, ch ≠ ']')
    (hfin : goodGapB final = true) :
    extract_wiki_links_from_text (String.mk (wikiText parts final)) =
      parts.map (fun p =>
        { resource_type := none, resource_name := String.mk p.2, resolved := false }) := by
  unfold extract_wiki_links_from_text
  rw [show (String.mk (wikiText parts final)).data = wikiText parts final
    from rfl]
  rw [scan_wikiText parts final hparts hfin, List.map_map]
  rfl

theorem extract_wiki_links_from_text_spec_witness :
    (∀ p ∈ [("This has ".data, "WikiLink".data),
            (" and ".data, "Another Resource".data)],
        goodGapB p.1 = true ∧ p.2 ≠ [] ∧ ∀ ch ∈ p.2, ch ≠ ']') ∧
    goodGapB " with some text".data = true ∧
    extract_wiki_links_from_text (String.mk (wikiText
        [("This has ".data, "WikiLink".data),
         (" and ".data, "Another Resource".data)] " with some text".data)) =
      [{ resource_type := none, resource_name := "WikiLink",
         resolved := false },
       { resource_type := none, resource_name := "Another Resource",
         resolved := false }] :=
  ⟨by decide, by decide,
    extract_wiki_links_from_text_spec
      [("This has ".data, "WikiLink".data),
       (" and ".data, "Another Resource".data)]
      " with some text".data (by decide) (by decide)⟩
